import Mathlib

/-!
Shallow embedding of the text post-processing and document-assembly
pipeline of the book-generator repository (src/app.py, with src/old.py as
the legacy variant), together with theorems settling the frozen claims.

Strings are modelled as Lean `String` (a wrapper around `List Char`); the
Python string primitives used by the source (`strip`, `split`, `split('\n')`,
`replace(old, new, 1)`, `lower`, `capitalize`, `title`, `startswith`) are
embedded character-by-character.  The regular-expression substitutions of
`remove_unnecessary_comments` are embedded as direct recursive scanners with
exactly the matching semantics Python's `re.sub` gives these patterns:
`¡.*!` is greedy within one line, `\(.*?\)` is non-greedy within one line,
`\n{3,}` collapses maximal newline runs, and the phrase patterns are
case-insensitive literals (with `Aquí está el capítulo \d+` taking a
greedy nonempty digit run).  Whitespace and case tables cover ASCII plus
the accented letters occurring in the source's patterns.
-/

namespace BookGen

/-- Whitespace characters recognised by Python `str.strip` / `str.split`
(ASCII subset, which covers every character the source manipulates). -/
def pyIsSpace (c : Char) : Bool :=
  c = ' ' || c = '\t' || c = '\n' || c = '\r' || c = '\x0b' || c = '\x0c'

/-- Lower-casing as Python `str.lower`, on ASCII plus the accented letters
appearing in the source's Spanish patterns. -/
def pyToLower (c : Char) : Char :=
  match c with
  | 'Á' => 'á' | 'É' => 'é' | 'Í' => 'í' | 'Ó' => 'ó'
  | 'Ú' => 'ú' | 'Ñ' => 'ñ' | 'Ü' => 'ü'
  | _ => c.toLower

/-- Upper-casing as Python `str.upper`, same coverage as `pyToLower`. -/
def pyToUpper (c : Char) : Char :=
  match c with
  | 'á' => 'Á' | 'é' => 'É' | 'í' => 'Í' | 'ó' => 'Ó'
  | 'ú' => 'Ú' | 'ñ' => 'Ñ' | 'ü' => 'Ü'
  | _ => c.toUpper

/-- Cased (letter) characters, as used by Python `str.title` to decide word
boundaries: ASCII letters plus the accented letters of the source. -/
def pyIsAlpha (c : Char) : Bool :=
  ('a' ≤ c && c ≤ 'z') || ('A' ≤ c && c ≤ 'Z') ||
  c = 'á' || c = 'é' || c = 'í' || c = 'ó' || c = 'ú' || c = 'ñ' || c = 'ü' ||
  c = 'Á' || c = 'É' || c = 'Í' || c = 'Ó' || c = 'Ú' || c = 'Ñ' || c = 'Ü'

/-- ASCII digits, the characters `\d` matches in the source's pattern. -/
def pyIsDigit (c : Char) : Bool := '0' ≤ c && c ≤ '9'

/-- Drop a trailing run of characters satisfying `p` (the right half of
Python `str.strip`). -/
def dropTrail (p : Char → Bool) : List Char → List Char
  | [] => []
  | c :: cs =>
    match dropTrail p cs with
    | [] => if p c then [] else [c]
    | w :: ws => c :: w :: ws

/-- Python `str.strip()` on character lists. -/
def pyStripL (l : List Char) : List Char :=
  dropTrail pyIsSpace (l.dropWhile pyIsSpace)

/-- Python `str.strip()` on strings. -/
def pyStrip (s : String) : String := ⟨pyStripL s.data⟩

/-- Python `str.split()` (no separator: split on whitespace runs, dropping
empty words); the accumulator holds the current word reversed. -/
def pyWordsAux : List Char → List Char → List (List Char)
  | [], acc => if acc.isEmpty then [] else [acc.reverse]
  | c :: cs, acc =>
    if pyIsSpace c then
      if acc.isEmpty then pyWordsAux cs [] else acc.reverse :: pyWordsAux cs []
    else pyWordsAux cs (c :: acc)

/-- Python `str.split()` on character lists. -/
def pyWords (l : List Char) : List (List Char) := pyWordsAux l []

/-- `len(s.split())`, the whitespace-delimited word count the source uses
for the 2500-word floor. -/
def wordCount (s : String) : Nat := (pyWords s.data).length

/-- Python `s.split('\n')`: split at every newline, keeping empty pieces
(`"".split('\n') == [""]`). -/
def splitNl : List Char → List (List Char)
  | [] => [[]]
  | c :: cs =>
    let r := splitNl cs
    if c = '\n' then [] :: r
    else
      match r with
      | [] => [[c]]
      | h :: t => (c :: h) :: t

/-- Python `s.replace(old, new, 1)` for one-character `old`/`new`: replace
the first occurrence only. -/
def replaceFirst (a b : Char) : List Char → List Char
  | [] => []
  | c :: cs => if c = a then b :: cs else c :: replaceFirst a b cs

/-- Python `str.capitalize()`: first character upper-cased, the rest
lower-cased. -/
def pyCapL : List Char → List Char
  | [] => []
  | c :: cs => pyToUpper c :: cs.map pyToLower

/-- One pass of Python `str.title()`: a letter is upper-cased when the
previous character is not a letter and lower-cased otherwise. -/
def pyTitleAux : Bool → List Char → List Char
  | _, [] => []
  | prev, c :: cs =>
    (if pyIsAlpha c then (if prev then pyToLower c else pyToUpper c) else c) ::
      pyTitleAux (pyIsAlpha c) cs

/-- Python `str.title()` on character lists. -/
def pyTitleL (l : List Char) : List Char := pyTitleAux false l

/-- Python `str.lower()` on strings. -/
def pyLowerStr (s : String) : String := ⟨s.data.map pyToLower⟩

/-! ### The source's text-normalisation functions (src/app.py) -/

/-- Characters surviving `re.sub(r'[#*_`]', '', text)`. -/
def notMd (c : Char) : Bool := !(c = '#' || c = '*' || c = '_' || c = '`')

/-- `clean_markdown` (src/app.py:12-15): delete every `#`, `*`, `_`,
backtick character, then strip the whole text. -/
def clean_markdown (s : String) : String :=
  ⟨pyStripL (s.data.filter notMd)⟩

/-- The per-line body of `process_lists` (src/app.py:24-34), threading the
`in_list` flag: a line whose stripped form starts with `-` has its first
`-` replaced by `—`; leaving a run of such lines inserts an empty line. -/
def plAux : List (List Char) → Bool → List (List Char)
  | [], _ => []
  | l :: ls, inList =>
    let s := pyStripL l
    if s.head? = some '-' then replaceFirst '-' '—' s :: plAux ls true
    else if inList then [] :: s :: plAux ls false
    else s :: plAux ls false

/-- `process_lists` (src/app.py:18-36): split on `'\n'`, process lines with
the `in_list` flag, rejoin with `'\n\n'`. -/
def process_lists (s : String) : String :=
  ⟨List.intercalate ['\n', '\n'] (plAux (splitNl s.data) false)⟩

/-- Case-insensitive literal prefix test (the pattern is given already
lower-cased), as used by `re.sub(pattern, "", text, flags=re.IGNORECASE)`
for the source's literal phrase patterns. -/
def startsCI : List Char → List Char → Bool
  | [], _ => true
  | _ :: _, [] => false
  | p :: ps, c :: cs => pyToLower c = p && startsCI ps cs

/-- Fuel-driven body of `subLit`; every recursive call shortens the text,
so fuel `l.length` always suffices and the fuel-exhausted arm is dead. -/
def subLitF (p : Char) (ps : List Char) : Nat → List Char → List Char
  | _, [] => []
  | 0, l => l
  | fuel + 1, c :: cs =>
    if startsCI (p :: ps) (c :: cs) then subLitF p ps fuel (cs.drop ps.length)
    else c :: subLitF p ps fuel cs

/-- `re.sub` with a (nonempty, lower-cased) literal pattern and empty
replacement: delete non-overlapping case-insensitive occurrences, scanning
left to right. -/
def subLit (p : Char) (ps : List Char) (l : List Char) : List Char :=
  subLitF p ps l.length l

/-- Index of the last `'!'` in a line (used for the greedy `¡.*!`). -/
def lastBang : List Char → Option Nat
  | [] => none
  | c :: cs =>
    match lastBang cs with
    | some j => some (j + 1)
    | none => if c = '!' then some 0 else none

/-- Fuel-driven body of `subExclaim` (fuel `l.length` always suffices). -/
def subExclaimF : Nat → List Char → List Char
  | _, [] => []
  | 0, l => l
  | fuel + 1, c :: cs =>
    if c = '¡' then
      match lastBang (cs.takeWhile (fun x => x ≠ '\n')) with
      | some j => subExclaimF fuel (cs.drop (j + 1))
      | none => c :: subExclaimF fuel cs
    else c :: subExclaimF fuel cs

/-- `re.sub(r"¡.*!", "", text)`: at the leftmost `¡` that has a `!` later
on the same line, greedily delete through the last such `!`; `.` does not
cross newlines. -/
def subExclaim (l : List Char) : List Char := subExclaimF l.length l

/-- The literal part of the pattern `Aquí está el capítulo \d+`,
lower-cased (matching is case-insensitive). -/
def chapPat : List Char := "aquí está el capítulo ".data

/-- Fuel-driven body of `subChap` (fuel `l.length` always suffices). -/
def subChapF : Nat → List Char → List Char
  | _, [] => []
  | 0, l => l
  | fuel + 1, c :: cs =>
    if startsCI chapPat (c :: cs) &&
        (((c :: cs).drop chapPat.length).head?.any pyIsDigit) then
      subChapF fuel (((c :: cs).drop chapPat.length).dropWhile pyIsDigit)
    else c :: subChapF fuel cs

/-- `re.sub(r"Aquí está el capítulo \d+", "", text, flags=re.IGNORECASE)`:
the literal followed by a greedy nonempty digit run. -/
def subChap (l : List Char) : List Char := subChapF l.length l

/-- Fuel-driven body of `subParen` (fuel `l.length` always suffices). -/
def subParenF : Nat → List Char → List Char
  | _, [] => []
  | 0, l => l
  | fuel + 1, c :: cs =>
    if c = '(' then
      match (cs.takeWhile (fun x => x ≠ '\n')).findIdx? (fun x => x = ')') with
      | some j => subParenF fuel (cs.drop (j + 1))
      | none => c :: subParenF fuel cs
    else c :: subParenF fuel cs

/-- `re.sub(r"\(.*?\)", "", text)`: at each `(`, non-greedily delete
through the first `)` later on the same line, if any. -/
def subParen (l : List Char) : List Char := subParenF l.length l

/-- Fuel-driven body of `collapseNl` (fuel `l.length` always suffices). -/
def collapseNlF : Nat → List Char → List Char
  | _, [] => []
  | 0, l => l
  | fuel + 1, c :: cs =>
    if c = '\n' then
      let run := 1 + (cs.takeWhile (fun x => x = '\n')).length
      (if 3 ≤ run then ['\n', '\n'] else List.replicate run '\n') ++
        collapseNlF fuel (cs.dropWhile (fun x => x = '\n'))
    else c :: collapseNlF fuel cs

/-- `re.sub(r"\n{3,}", "\n\n", text)`: collapse every maximal run of three
or more newlines to exactly two. -/
def collapseNl (l : List Char) : List Char := collapseNlF l.length l

/-- `remove_unnecessary_comments` (src/app.py:39-53): the six phrase
patterns in order, then parenthetical removal, newline collapse, strip. -/
def remove_unnecessary_comments (s : String) : String :=
  ⟨pyStripL (collapseNl (subParen
    (subLit 'v' "amos a explorar".data
      (subLit 'e' "l objetivo de este capítulo".data
        (subLit 'e' "n este capítulo".data
          (subLit 'e' "ste capítulo trata sobre".data
            (subChap (subExclaim s.data))))))))⟩

/-- `format_title` (src/app.py:56-63).  The Spanish branch indexes
`words[0]`, which raises `IndexError` when `title.split()` is empty; that
failure is modelled as `none`. -/
def format_title (title language : String) : Option String :=
  if pyLowerStr language = "spanish" then
    match pyWords title.data with
    | [] => none
    | w :: ws =>
      some ⟨List.intercalate [' '] (pyCapL w :: ws.map (List.map pyToLower))⟩
  else some ⟨pyTitleL title.data⟩

/-! ### The content fetcher (src/app.py:66-102) -/

/-- One element of the `parts` array of a Gemini response; `none` models a
missing `"text"` key. -/
structure RPart where
  text : Option String

/-- The `content` object of a candidate; `none` models a missing `"parts"`
key. -/
structure RContent where
  parts : Option (List RPart)

/-- One element of the `candidates` array; `none` models a missing
`"content"` key. -/
structure RCand where
  content : Option RContent

/-- A decoded JSON response body; `none` models a missing `"candidates"`
key. -/
structure GenResponse where
  candidates : Option (List RCand)

/-- Outcome of the HTTP round trip in `generate_chapter`: either a raised
transport/HTTP error (`requests.post` failing or `raise_for_status`), or a
decoded JSON body. -/
inductive FetchResult where
  | transportError
  | ok (r : GenResponse)

/-- The placeholder the source substitutes on every failure path. -/
def placeholderText : String := "Error generating the chapter."

/-- The extraction chain
`json.get("candidates", [{}])[0].get("content", {}).get("parts", [{}])[0].get("text", ...)`
(src/app.py:95): `none` when no text string is reached, i.e. when an empty
`candidates`/`parts` list raises `IndexError` (caught by the `except`) or
the final `get` falls back to its default. -/
def extractChain (r : GenResponse) : Option String :=
  match r.candidates.getD [⟨none⟩] with
  | [] => none
  | c :: _ =>
    match (c.content.getD ⟨none⟩).parts.getD [⟨none⟩] with
    | [] => none
    | p :: _ => p.text

/-- The raw content string `generate_chapter` holds after the
`try`/`except` block: the extracted text, or the placeholder on any
transport error, `IndexError`, or missing `"text"` key. -/
def rawOf : FetchResult → String
  | .transportError => placeholderText
  | .ok r => (extractChain r).getD placeholderText

/-- A fetch invocation that yields no generated text: a transport/HTTP
error or a malformed response shape. -/
def fetchFailed : FetchResult → Prop
  | .transportError => True
  | .ok r => extractChain r = none

/-- The normalisation `generate_chapter` applies before returning
(src/app.py:100-102): `clean_markdown` then `remove_unnecessary_comments`. -/
def normalizeContent (s : String) : String :=
  remove_unnecessary_comments (clean_markdown s)

/-- `generate_chapter` (src/app.py:66-102) as a function of the fetch
outcome: the prompt construction and HTTP call are external collaborators,
so the function is parameterised by the `FetchResult` they produce. -/
def generate_chapter (fr : FetchResult) : String :=
  normalizeContent (rawOf fr)

/-- Convenience constructor: a well-formed response carrying `text` `s`. -/
def okText (s : String) : FetchResult :=
  .ok ⟨some [⟨some ⟨some [⟨some s⟩]⟩⟩]⟩

/-! ### The word-count floor loop (src/app.py:256-262) -/

/-- The accumulated chapter content after `k` additional fetches: the
first fetch's normalised text, then each further normalised text appended
with a blank-line (`"\n\n"`) separator, exactly as
`chapter_content += "\n\n" + additional_content`. -/
def chapterAcc (fetch : Nat → FetchResult) : Nat → String
  | 0 => generate_chapter (fetch 0)
  | k + 1 => chapterAcc fetch k ++ "\n\n" ++ generate_chapter (fetch (k + 1))

/-- The `while word_count < 2500` loop (src/app.py:258-261), instrumented
with fuel: `none` models the loop still running after `fuel` additional
fetches.  The source itself has no retry cap. -/
def wcLoop (fetch : Nat → FetchResult) : Nat → Nat → String → Option String
  | fuel, idx, acc =>
    if 2500 ≤ wordCount acc then some acc
    else
      match fuel with
      | 0 => none
      | f + 1 => wcLoop fetch f (idx + 1) (acc ++ "\n\n" ++ generate_chapter (fetch idx))

/-- One chapter of the floor variant: first fetch, then the re-fetch loop
(`fetch j` is the result of the `j`-th invocation for this chapter, all
with the same prompt). -/
def wcChapter (fetch : Nat → FetchResult) (fuel : Nat) : Option String :=
  wcLoop fetch fuel 1 (generate_chapter (fetch 0))

/-- The word-count-floor loop terminates iff some accumulated prefix of
fetch results reaches 2500 words. -/
def loopTerminates (fetch : Nat → FetchResult) : Prop :=
  ∃ k, 2500 ≤ wordCount (chapterAcc fetch k)

/-- The per-chapter results of the main generation loop
(src/app.py:254-265): chapter `i` (1-based) is assembled from its own
fetch stream `fetch i`. -/
def chapterResults (fetch : Nat → Nat → FetchResult) (fuel n : Nat) :
    List (Option String) :=
  (List.range n).map (fun i => wcChapter (fetch (i + 1)) fuel)

/-! ### The Generate-Book handler's section list (src/app.py:242-275) -/

/-- The role a generated section plays, i.e. which prompt template
`generate_chapter` is invoked with (`is_intro` / chapter number /
`is_conclusion`). -/
inductive Role where
  | intro
  | chapter (i : Nat)
  | conclusion

/-- The chapter contents appended by the `for i in range(1, num_chapters + 1)`
loop, abstracting each section's final content as `gen role`. -/
def chapterContents (gen : Role → String) : Nat → List String
  | 0 => []
  | n + 1 => chapterContents gen n ++ [gen (.chapter (n + 1))]

/-- The handler's `chapters` list: optional introduction, then the `n`
numbered chapters, then optional conclusions, built by the same appends as
src/app.py:242-275. -/
def buildSections (includeIntro : Bool) (n : Nat) (includeConclusion : Bool)
    (gen : Role → String) : List String :=
  let cs0 := if includeIntro then [gen .intro] else []
  let cs1 := cs0 ++ chapterContents gen n
  if includeConclusion then cs1 ++ [gen .conclusion] else cs1

/-! ### Document-builder headings (src/app.py:160-166) -/

/-- Decimal digit characters for `natToStr`. -/
def digitChar : Nat → Char
  | 0 => '0' | 1 => '1' | 2 => '2' | 3 => '3' | 4 => '4'
  | 5 => '5' | 6 => '6' | 7 => '7' | 8 => '8' | _ => '9'

/-- Decimal digits of `n`, most significant first (fuel-driven; fuel
`n + 1` always suffices). -/
def natDigits : Nat → Nat → List Char
  | 0, _ => []
  | fuel + 1, n =>
    if n < 10 then [digitChar n]
    else natDigits fuel (n / 10) ++ [digitChar (n % 10)]

/-- Python `f"{i}"` for a natural number. -/
def natToStr (n : Nat) : String := ⟨natDigits (n + 1) n⟩

/-- `chapter_title_text` (src/app.py:161): `"Chapter {i}"` unless the
language lower-cases to `"spanish"`, in which case `"Capítulo {i}"`. -/
def labelText (language : String) (i : Nat) : String :=
  if pyLowerStr language ≠ "spanish" then "Chapter " ++ natToStr i
  else "Capítulo " ++ natToStr i

/-- The heading paragraph texts of the chapters section of
`create_word_document` (src/app.py:160-166): for the `idx`-th element of
the `chapters` list (0-based), `format_title` applied to the label for
`i = idx + 1` — `enumerate(chapters, 1)` numbers every element of the
list it is given. -/
def docHeadings (language : String) (chapters : List String) :
    List (Option String) :=
  (List.range chapters.length).map
    (fun idx => format_title (labelText language (idx + 1)) language)

/-! ### Spec-side definitions for comparison -/

/-- Whether `process_lists` treats a line as a list line:
`line.strip().startswith('-')`. -/
def isListLine (l : List Char) : Bool := (pyStripL l).head? = some '-'

/-- Modelled from the spec's words (§4.3, list/paragraph restructuring):
a line whose trimmed form starts with a hyphen has its first hyphen
replaced with an em-dash, other lines are trimmed. -/
def convertLineSpec (l : List Char) : List Char :=
  if isListLine l then replaceFirst '-' '—' (pyStripL l) else pyStripL l

/-- Modelled from the spec's words (§4.3): the restructured line sequence —
converted lines, with an empty line inserted immediately after a list line
that is followed by a non-list line. -/
def restructureSpec : List (List Char) → List (List Char)
  | [] => []
  | [l] => [convertLineSpec l]
  | l1 :: l2 :: rest =>
    if isListLine l1 && !isListLine l2 then
      convertLineSpec l1 :: [] :: restructureSpec (l2 :: rest)
    else
      convertLineSpec l1 :: restructureSpec (l2 :: rest)

/-- Whether a string is free of leading and trailing whitespace. -/
def isStripped (s : String) : Bool :=
  (match s.data.head? with
   | none => true
   | some c => !pyIsSpace c) &&
  (match s.data.getLast? with
   | none => true
   | some c => !pyIsSpace c)

/-- A test input of `n` whitespace-delimited words: `"w w ... w"`. -/
def mkWordsL : Nat → List Char
  | 0 => []
  | 1 => ['w']
  | n + 2 => 'w' :: ' ' :: mkWordsL (n + 1)

/-- `mkWordsL` as a string. -/
def mkWords (n : Nat) : String := ⟨mkWordsL n⟩

/-- The full normalisation pipeline of the newer variant in source order:
`clean_markdown`, then `remove_unnecessary_comments` (both in
`generate_chapter`), then `process_lists` (applied to each section by
`create_word_document`). -/
def fullNormalize (s : String) : String :=
  process_lists (remove_unnecessary_comments (clean_markdown s))

/-- A fetch stream whose every invocation returns a well-formed response
with empty text (which normalises to the empty string). -/
def emptyFetch : Nat → FetchResult := fun _ => okText ""

/-- A fetch stream whose every invocation returns 2500 words at once. -/
def bigFetch : Nat → FetchResult := fun _ => okText (mkWords 2500)

/-- A fetch stream whose first result normalises to the empty string (a
single parenthetical) and whose later results carry 2500 words. -/
def badFetch : Nat → FetchResult :=
  fun i => if i = 0 then okText "(x)" else okText (mkWords 2500)

/-- A per-chapter fetch table where every invocation succeeds. -/
def cfAll : Nat → Nat → FetchResult := fun _ _ => okText (mkWords 2500)

/-- `cfAll` with every fetch of chapter 2 replaced by a transport error. -/
def cgFail : Nat → Nat → FetchResult :=
  fun i j => if i = 2 then .transportError else cfAll i j

end BookGen

/-!
## Supporting lemmas and claim theorems
-/

namespace BookGen


/-- Unfolding equation for `dropTrail` on a cons cell. -/
theorem dropTrail_cons (p : Char → Bool) (c : Char) (cs : List Char) :
    dropTrail p (c :: cs) =
      match dropTrail p cs with
      | [] => if p c then [] else [c]
      | w :: ws => c :: w :: ws := rfl

theorem dropWhile_head_false {p : Char → Bool} :
    ∀ {l c t}, List.dropWhile p l = c :: t → p c = false := by
  intro l
  induction l with
  | nil => intro c t h; simp [List.dropWhile] at h
  | cons a as ih =>
    intro c t h
    rw [List.dropWhile_cons] at h
    by_cases hpa : p a
    · rw [if_pos hpa] at h; exact ih h
    · rw [if_neg hpa] at h
      injection h with h1 h2
      subst h1
      exact Bool.eq_false_iff.mpr hpa

theorem dropTrail_head (p : Char → Bool) (c : Char) (cs : List Char) :
    dropTrail p (c :: cs) = [] ∨ ∃ t, dropTrail p (c :: cs) = c :: t := by
  rw [dropTrail_cons]
  cases dropTrail p cs with
  | nil =>
    by_cases hpc : p c
    · left; simp [hpc]
    · right; exact ⟨[], by simp [hpc]⟩
  | cons w ws => right; exact ⟨w :: ws, rfl⟩

theorem dropTrail_idem (p : Char → Bool) :
    ∀ l, dropTrail p (dropTrail p l) = dropTrail p l := by
  intro l
  induction l with
  | nil => rfl
  | cons c cs ih =>
    have e := dropTrail_cons p c cs
    cases h : dropTrail p cs with
    | nil =>
      rw [h] at e
      by_cases hpc : p c
      · rw [e, if_pos hpc]; rfl
      · rw [e, if_neg hpc]
        rw [show dropTrail p [c] = if p c then [] else [c] from rfl, if_neg hpc]
    | cons w ws =>
      rw [h] at e
      rw [e, dropTrail_cons]
      have hww : dropTrail p (w :: ws) = w :: ws := by
        rw [← h]; exact ih
      rw [hww]

theorem dropTrail_getLast_false {p : Char → Bool} :
    ∀ {l x}, (dropTrail p l).getLast? = some x → p x = false := by
  intro l
  induction l with
  | nil => intro x h; simp [dropTrail] at h
  | cons c cs ih =>
    intro x h
    rw [dropTrail_cons] at h
    cases hcs : dropTrail p cs with
    | nil =>
      rw [hcs] at h
      by_cases hpc : p c
      · rw [if_pos hpc] at h; simp at h
      · rw [if_neg hpc] at h
        simp at h
        subst h
        exact Bool.eq_false_iff.mpr hpc
    | cons w ws =>
      rw [hcs] at h
      rw [List.getLast?_cons_cons] at h
      rw [← hcs] at h
      exact ih h

theorem mem_dropTrail {p : Char → Bool} : ∀ {l a}, a ∈ dropTrail p l → a ∈ l := by
  intro l
  induction l with
  | nil => intro a h; simp [dropTrail] at h
  | cons c cs ih =>
    intro a h
    rw [dropTrail_cons] at h
    cases hcs : dropTrail p cs with
    | nil =>
      rw [hcs] at h
      by_cases hpc : p c
      · rw [if_pos hpc] at h; simp at h
      · rw [if_neg hpc] at h
        simp at h
        simp [h]
    | cons w ws =>
      rw [hcs] at h
      rcases List.mem_cons.mp h with h1 | h1
      · simp [h1]
      · have h2 : a ∈ dropTrail p cs := by rw [hcs]; exact h1
        exact List.mem_cons_of_mem c (ih h2)

theorem mem_pyStripL {l : List Char} {a : Char} (h : a ∈ pyStripL l) : a ∈ l :=
  (List.dropWhile_sublist pyIsSpace).subset (mem_dropTrail h)

theorem dropWhile_pyStripL (l : List Char) :
    List.dropWhile pyIsSpace (pyStripL l) = pyStripL l := by
  unfold pyStripL
  cases hd : List.dropWhile pyIsSpace l with
  | nil => simp [dropTrail]
  | cons c t =>
    have hc : pyIsSpace c = false := dropWhile_head_false hd
    rcases dropTrail_head pyIsSpace c t with h | ⟨t2, h⟩
    · rw [h]; simp [List.dropWhile]
    · rw [h, List.dropWhile_cons, hc]
      simp

theorem pyStripL_idem (l : List Char) : pyStripL (pyStripL l) = pyStripL l := by
  show dropTrail pyIsSpace (List.dropWhile pyIsSpace (pyStripL l)) = pyStripL l
  rw [dropWhile_pyStripL]
  unfold pyStripL
  exact dropTrail_idem pyIsSpace _

theorem isStripped_pyStripL (l : List Char) : isStripped ⟨pyStripL l⟩ = true := by
  unfold isStripped
  have h1 : (match (pyStripL l).head? with
      | none => true
      | some c => !pyIsSpace c) = true := by
    cases hL : pyStripL l with
    | nil => simp
    | cons c t =>
      have hc : pyIsSpace c = false := by
        unfold pyStripL at hL
        cases hd : List.dropWhile pyIsSpace l with
        | nil => rw [hd] at hL; simp [dropTrail] at hL
        | cons e es =>
          rw [hd] at hL
          rcases dropTrail_head pyIsSpace e es with h | ⟨t2, h⟩
          · rw [h] at hL; simp at hL
          · rw [h] at hL
            injection hL with hce _
            subst hce
            exact dropWhile_head_false hd
      simp [hL, hc]
  have h2 : (match (pyStripL l).getLast? with
      | none => true
      | some c => !pyIsSpace c) = true := by
    cases hG : (pyStripL l).getLast? with
    | none => simp
    | some c =>
      have hc : pyIsSpace c = false := dropTrail_getLast_false hG
      simp [hc]
  show (_ && _) = true
  rw [h1, h2]
  rfl

/-- C1, amended part: the markdown-stripping stage `clean_markdown` is
idempotent (removing the marker characters leaves nothing for a second
pass to remove, and stripping a stripped text is a no-op). -/
theorem c1_clean_markdown_idempotent :
    ∀ s, clean_markdown (clean_markdown s) = clean_markdown s := by
  intro s
  have h : List.filter notMd (pyStripL (List.filter notMd s.data)) =
      pyStripL (List.filter notMd s.data) :=
    List.filter_eq_self.mpr (fun a ha => (List.mem_filter.mp (mem_pyStripL ha)).2)
  show (⟨pyStripL (List.filter notMd (pyStripL (List.filter notMd s.data)))⟩ : String) =
    (⟨pyStripL (List.filter notMd s.data)⟩ : String)
  rw [h, pyStripL_idem]

/-- C1, counterexample: the full normalisation pipeline (markdown
stripping, boilerplate/parenthetical removal, line-break collapse, trim,
and list/paragraph restructuring) is NOT idempotent: on `"a\nb"` the first
pass yields `"a\n\nb"` and the second pass re-splits those lines and
rejoins them with double line breaks, yielding `"a\n\n\n\nb"`. -/
theorem c1_counterexample :
    fullNormalize (fullNormalize "a\nb") ≠ fullNormalize "a\nb" := by decide

/-- C8: the boilerplate pattern `¡.*!` matches greedily from an opening
`¡` to the last `!` on the same line, so `remove_unnecessary_comments`
deletes the words `ordinary prose` — which are not a listed phrase, a
parenthetical, or excess line breaks — along with the two exclamatory
phrases surrounding them. -/
theorem c8_greedy_exclamation_overdeletion :
    remove_unnecessary_comments "¡Hola! ordinary prose ¡Adiós!" = "" := by decide


/-- Unfolding equation for `plAux` on a cons cell. -/
theorem plAux_cons (l : List Char) (ls : List (List Char)) (b : Bool) :
    plAux (l :: ls) b =
      if (pyStripL l).head? = some '-' then
        replaceFirst '-' '—' (pyStripL l) :: plAux ls true
      else if b then [] :: pyStripL l :: plAux ls false
      else pyStripL l :: plAux ls false := rfl

/-- Entering `plAux` with the `in_list` flag set prepends an empty line
exactly when the next line is not a list line. -/
theorem plAux_true_eq (l : List Char) (ls : List (List Char)) :
    plAux (l :: ls) true =
      if isListLine l then plAux (l :: ls) false
      else [] :: plAux (l :: ls) false := by
  rw [plAux_cons, plAux_cons]
  by_cases h : (pyStripL l).head? = some '-' <;>
    simp [isListLine, h]

/-- The source's flag-threading line loop computes exactly the spec's
restructuring. -/
theorem plAux_eq_restructureSpec : ∀ ls, plAux ls false = restructureSpec ls := by
  intro ls
  induction ls with
  | nil => rfl
  | cons l ls ih =>
    cases ls with
    | nil =>
      rw [plAux_cons]
      by_cases h : (pyStripL l).head? = some '-' <;>
        simp [restructureSpec, convertLineSpec, isListLine, h, plAux]
    | cons l2 rest =>
      rw [plAux_cons]
      by_cases h1 : (pyStripL l).head? = some '-'
      · rw [if_pos h1, plAux_true_eq, ih]
        by_cases h2 : (pyStripL l2).head? = some '-' <;>
          simp [restructureSpec, convertLineSpec, isListLine, h1, h2]
      · rw [if_neg h1, if_neg (by simp : ¬(false = true)), ih]
        simp [restructureSpec, convertLineSpec, isListLine, h1]

/-- No line emitted by the source's line loop starts with a literal
hyphen: converted list lines start with the em-dash, and a trimmed
non-list line starts with a hyphen only if it would have been a list
line. -/
theorem plMember_no_hyphen : ∀ ls (b : Bool) l, l ∈ plAux ls b → l.head? ≠ some '-' := by
  intro ls
  induction ls with
  | nil => intro b l h; simp [plAux] at h
  | cons a as ih =>
    intro b l h
    rw [plAux_cons] at h
    by_cases ha : (pyStripL a).head? = some '-'
    · rw [if_pos ha] at h
      rcases List.mem_cons.mp h with h1 | h1
      · subst h1
        cases hs : pyStripL a with
        | nil => rw [hs] at ha; simp at ha
        | cons c t =>
          rw [hs] at ha
          simp at ha
          subst ha
          show (replaceFirst '-' '—' ('-' :: t)).head? ≠ some '-'
          simp [replaceFirst]
      · exact ih true l h1
    · rw [if_neg ha] at h
      cases b with
      | true =>
        rw [if_pos rfl] at h
        rcases List.mem_cons.mp h with h1 | h1
        · subst h1; simp
        · rcases List.mem_cons.mp h1 with h2 | h2
          · subst h2; simp [ha]
          · exact ih false l h2
      | false =>
        rw [if_neg (by simp : ¬(false = true))] at h
        rcases List.mem_cons.mp h with h1 | h1
        · subst h1; simp [ha]
        · exact ih false l h1

/-- C7: `process_lists` performs exactly the claimed restructuring — it
equals the spec-side `restructureSpec` (first hyphen of each list line
replaced by an em-dash, an empty line inserted immediately after the last
consecutive list line when non-list text resumes) rejoined with double
line breaks, and no emitted line starts with a literal hyphen. -/
theorem c7_list_restructuring :
    ∀ s : String,
      process_lists s =
        ⟨List.intercalate ['\n', '\n'] (restructureSpec (splitNl s.data))⟩ ∧
      ∀ l, l ∈ restructureSpec (splitNl s.data) → l.head? ≠ some '-' := by
  intro s
  constructor
  · show (⟨List.intercalate ['\n', '\n'] (plAux (splitNl s.data) false)⟩ : String) = _
    rw [plAux_eq_restructureSpec]
  · intro l hl
    rw [← plAux_eq_restructureSpec] at hl
    exact plMember_no_hyphen _ false l hl

/-- C7 witness: on `"- item\nrest"` the emitted list line is `"— item"`,
which indeed does not start with a hyphen. -/
theorem c7_list_restructuring_witness : "— item".data.head? ≠ some '-' :=
  (c7_list_restructuring "- item\nrest").2 "— item".data (by decide)

theorem chapterContents_eq (gen : Role → String) :
    ∀ n, chapterContents gen n = (List.range n).map (fun i => gen (.chapter (i + 1))) := by
  intro n
  induction n with
  | zero => rfl
  | succ n ih =>
    show chapterContents gen n ++ [gen (.chapter (n + 1))] = _
    rw [ih, List.range_succ, List.map_append]
    rfl

/-- C5: the Generate-Book handler's section list is Intro (when included),
Chapter 1..N in order, Conclusion (when included); with both toggles on
its length is N + 2, and switching a toggle off removes exactly that
section without disturbing the rest of the order. -/
theorem c5_section_ordering :
    ∀ (n : Nat) (gen : Role → String),
      buildSections true n true gen =
        gen .intro ::
          ((List.range n).map (fun i => gen (.chapter (i + 1))) ++ [gen .conclusion]) ∧
      (buildSections true n true gen).length = n + 2 ∧
      buildSections false n true gen =
        (List.range n).map (fun i => gen (.chapter (i + 1))) ++ [gen .conclusion] ∧
      buildSections true n false gen =
        gen .intro :: (List.range n).map (fun i => gen (.chapter (i + 1))) ∧
      buildSections false n false gen =
        (List.range n).map (fun i => gen (.chapter (i + 1))) := by
  intro n gen
  have hc := chapterContents_eq gen n
  refine ⟨?_, ?_, ?_, ?_, ?_⟩ <;>
    simp [buildSections, hc]


theorem subLitF_id (p : Char) (ps : List Char) :
    ∀ fuel l, (∀ c ∈ l, ¬ pyToLower c = p) → subLitF p ps fuel l = l := by
  intro fuel
  induction fuel with
  | zero => intro l h; cases l <;> rfl
  | succ fuel ih =>
    intro l h
    cases l with
    | nil => rfl
    | cons c cs =>
      have hc : ¬ pyToLower c = p := h c (by simp)
      have hs : startsCI (p :: ps) (c :: cs) = false := by
        show (decide (pyToLower c = p) && startsCI ps cs) = false
        simp [hc]
      simp only [subLitF, hs]
      rw [ih cs (fun a ha => h a (by simp [ha]))]
      simp

theorem subExclaimF_id : ∀ fuel l, '¡' ∉ l → subExclaimF fuel l = l := by
  intro fuel
  induction fuel with
  | zero => intro l h; cases l <;> rfl
  | succ fuel ih =>
    intro l h
    cases l with
    | nil => rfl
    | cons c cs =>
      have hc : ¬ c = '¡' := fun hh => h (by simp [hh])
      simp only [subExclaimF]
      rw [if_neg hc, ih cs (fun hh => h (by simp [hh]))]

theorem chapPat_cons : chapPat = 'a' :: "quí está el capítulo ".data := rfl

theorem subChapF_id : ∀ fuel l, (∀ c ∈ l, ¬ pyToLower c = 'a') → subChapF fuel l = l := by
  intro fuel
  induction fuel with
  | zero => intro l h; cases l <;> rfl
  | succ fuel ih =>
    intro l h
    cases l with
    | nil => rfl
    | cons c cs =>
      have hc : ¬ pyToLower c = 'a' := h c (by simp)
      have hs : startsCI chapPat (c :: cs) = false := by
        rw [chapPat_cons]
        show (decide (pyToLower c = 'a') && startsCI "quí está el capítulo ".data cs) = false
        simp [hc]
      simp only [subChapF, hs]
      rw [ih cs (fun a ha => h a (by simp [ha]))]
      simp

theorem subParenF_id : ∀ fuel l, '(' ∉ l → subParenF fuel l = l := by
  intro fuel
  induction fuel with
  | zero => intro l h; cases l <;> rfl
  | succ fuel ih =>
    intro l h
    cases l with
    | nil => rfl
    | cons c cs =>
      have hc : ¬ c = '(' := fun hh => h (by simp [hh])
      simp only [subParenF]
      rw [if_neg hc, ih cs (fun hh => h (by simp [hh]))]

theorem collapseNlF_id : ∀ fuel l, '\n' ∉ l → collapseNlF fuel l = l := by
  intro fuel
  induction fuel with
  | zero => intro l h; cases l <;> rfl
  | succ fuel ih =>
    intro l h
    cases l with
    | nil => rfl
    | cons c cs =>
      have hc : ¬ c = '\n' := fun hh => h (by simp [hh])
      simp only [collapseNlF]
      rw [if_neg hc, ih cs (fun hh => h (by simp [hh]))]

theorem mkWordsL_mem : ∀ n c, c ∈ mkWordsL n → c = 'w' ∨ c = ' '
  | 0, c, h => by simp [mkWordsL] at h
  | 1, c, h => by
      simp [mkWordsL] at h
      exact Or.inl h
  | n + 2, c, h => by
      rw [show mkWordsL (n + 2) = 'w' :: ' ' :: mkWordsL (n + 1) from rfl] at h
      rcases List.mem_cons.mp h with h1 | h1
      · exact Or.inl h1
      · rcases List.mem_cons.mp h1 with h2 | h2
        · exact Or.inr h2
        · exact mkWordsL_mem (n + 1) c h2

theorem mkWordsL_cons : ∀ n, ∃ t, mkWordsL (n + 1) = 'w' :: t
  | 0 => ⟨[], rfl⟩
  | n + 1 => ⟨' ' :: mkWordsL (n + 1), rfl⟩

theorem mkWordsL_getLast : ∀ n, (mkWordsL (n + 1)).getLast? = some 'w'
  | 0 => rfl
  | n + 1 => by
      rw [show mkWordsL (n + 2) = 'w' :: ' ' :: mkWordsL (n + 1) from rfl]
      rw [List.getLast?_cons_cons]
      obtain ⟨t, ht⟩ := mkWordsL_cons n
      rw [ht, List.getLast?_cons_cons, ← ht]
      exact mkWordsL_getLast n

theorem dropTrail_id_of_getLast {p : Char → Bool} :
    ∀ l, (∀ x, l.getLast? = some x → p x = false) → dropTrail p l = l := by
  intro l
  induction l with
  | nil => intro h; rfl
  | cons c cs ih =>
    intro h
    rcases hcs : cs with _ | ⟨d, ds⟩
    · subst hcs
      have hpc : p c = false := h c (by simp)
      rw [show dropTrail p [c] = if p c then [] else [c] from rfl, hpc]
      simp
    · subst hcs
      have h2 : dropTrail p (d :: ds) = d :: ds :=
        ih (fun x hx => h x (by rw [List.getLast?_cons_cons]; exact hx))
      rw [dropTrail_cons, h2]

theorem dropWhile_id_of_head {p : Char → Bool} {l : List Char}
    (h : ∀ c t, l = c :: t → p c = false) : List.dropWhile p l = l := by
  cases l with
  | nil => rfl
  | cons c cs =>
    rw [List.dropWhile_cons, h c cs rfl]
    simp

theorem pyStripL_mkWords (n : Nat) : pyStripL (mkWordsL (n + 1)) = mkWordsL (n + 1) := by
  obtain ⟨t, ht⟩ := mkWordsL_cons n
  unfold pyStripL
  rw [dropWhile_id_of_head (p := pyIsSpace)
    (by intro c t2 h2; rw [ht] at h2; injection h2 with h3 _; subst h3; rfl)]
  apply dropTrail_id_of_getLast
  intro x hx
  rw [mkWordsL_getLast n] at hx
  injection hx with h4
  subst h4
  rfl

theorem mkWords_char_facts :
    ∀ n c, c ∈ mkWordsL n →
      notMd c = true ∧ c ≠ '¡' ∧ c ≠ '(' ∧ c ≠ '\n' ∧
      ¬ pyToLower c = 'a' ∧ ¬ pyToLower c = 'e' ∧ ¬ pyToLower c = 'v' := by
  intro n c h
  rcases mkWordsL_mem n c h with h1 | h1 <;> subst h1 <;>
    exact ⟨rfl, by decide, by decide, by decide, by decide, by decide, by decide⟩

theorem subLit_id (p : Char) (ps l : List Char)
    (h : ∀ c ∈ l, ¬ pyToLower c = p) : subLit p ps l = l :=
  subLitF_id p ps l.length l h

theorem subExclaim_id (l : List Char) (h : '¡' ∉ l) : subExclaim l = l :=
  subExclaimF_id l.length l h

theorem subChap_id (l : List Char) (h : ∀ c ∈ l, ¬ pyToLower c = 'a') : subChap l = l :=
  subChapF_id l.length l h

theorem subParen_id (l : List Char) (h : '(' ∉ l) : subParen l = l :=
  subParenF_id l.length l h

theorem collapseNl_id (l : List Char) (h : '\n' ∉ l) : collapseNl l = l :=
  collapseNlF_id l.length l h

theorem clean_markdown_mkWords (n : Nat) :
    clean_markdown (mkWords (n + 1)) = mkWords (n + 1) := by
  show (⟨pyStripL (List.filter notMd (mkWordsL (n + 1)))⟩ : String) = _
  rw [List.filter_eq_self.mpr (fun a ha => (mkWords_char_facts _ a ha).1),
    pyStripL_mkWords]
  rfl

theorem remove_comments_mkWords (n : Nat) :
    remove_unnecessary_comments (mkWords (n + 1)) = mkWords (n + 1) := by
  have F := mkWords_char_facts (n + 1)
  have h1 : subExclaim (mkWordsL (n + 1)) = mkWordsL (n + 1) :=
    subExclaim_id _ (fun hm => (F _ hm).2.1 rfl)
  have h2 : subChap (mkWordsL (n + 1)) = mkWordsL (n + 1) :=
    subChap_id _ (fun c hm => (F c hm).2.2.2.2.1)
  have h3 : subLit 'e' "ste capítulo trata sobre".data (mkWordsL (n + 1)) = mkWordsL (n + 1) :=
    subLit_id _ _ _ (fun c hm => (F c hm).2.2.2.2.2.1)
  have h4 : subLit 'e' "n este capítulo".data (mkWordsL (n + 1)) = mkWordsL (n + 1) :=
    subLit_id _ _ _ (fun c hm => (F c hm).2.2.2.2.2.1)
  have h5 : subLit 'e' "l objetivo de este capítulo".data (mkWordsL (n + 1)) = mkWordsL (n + 1) :=
    subLit_id _ _ _ (fun c hm => (F c hm).2.2.2.2.2.1)
  have h6 : subLit 'v' "amos a explorar".data (mkWordsL (n + 1)) = mkWordsL (n + 1) :=
    subLit_id _ _ _ (fun c hm => (F c hm).2.2.2.2.2.2)
  have h7 : subParen (mkWordsL (n + 1)) = mkWordsL (n + 1) :=
    subParen_id _ (fun hm => (F _ hm).2.2.1 rfl)
  have h8 : collapseNl (mkWordsL (n + 1)) = mkWordsL (n + 1) :=
    collapseNl_id _ (fun hm => (F _ hm).2.2.2.1 rfl)
  show (⟨pyStripL (collapseNl (subParen
    (subLit 'v' "amos a explorar".data
      (subLit 'e' "l objetivo de este capítulo".data
        (subLit 'e' "n este capítulo".data
          (subLit 'e' "ste capítulo trata sobre".data
            (subChap (subExclaim (mkWordsL (n + 1))))))))))⟩ : String) = _
  rw [h1, h2, h3, h4, h5, h6, h7, h8, pyStripL_mkWords]
  rfl

theorem normalizeContent_mkWords (n : Nat) :
    normalizeContent (mkWords (n + 1)) = mkWords (n + 1) := by
  unfold normalizeContent
  rw [clean_markdown_mkWords, remove_comments_mkWords]

theorem pyWords_mkWords : ∀ n, pyWords (mkWordsL (n + 1)) = List.replicate (n + 1) ['w']
  | 0 => rfl
  | n + 1 => by
      show pyWordsAux (mkWordsL (n + 2)) [] = _
      rw [show mkWordsL (n + 2) = 'w' :: ' ' :: mkWordsL (n + 1) from rfl]
      show ['w'] :: pyWordsAux (mkWordsL (n + 1)) [] = _
      rw [show pyWordsAux (mkWordsL (n + 1)) [] = pyWords (mkWordsL (n + 1)) from rfl]
      rw [pyWords_mkWords n]
      rfl

theorem wordCount_mkWords (n : Nat) : wordCount (mkWords (n + 1)) = n + 1 := by
  show (pyWords (mkWordsL (n + 1))).length = n + 1
  rw [pyWords_mkWords n, List.length_replicate]

theorem pyWordsAux_allspace :
    ∀ l, (∀ c ∈ l, pyIsSpace c = true) → pyWordsAux l [] = [] := by
  intro l
  induction l with
  | nil => intro h; rfl
  | cons c cs ih =>
    intro h
    simp only [pyWordsAux, h c (by simp)]
    simpa using ih (fun a ha => h a (by simp [ha]))

theorem wordCount_allspace (s : String) (h : ∀ c ∈ s.data, pyIsSpace c = true) :
    wordCount s = 0 := by
  show (pyWordsAux s.data []).length = 0
  rw [pyWordsAux_allspace s.data h]
  rfl


/-- Unfolding equation for `wcLoop`. -/
theorem wcLoop_eq (fetch : Nat → FetchResult) (fuel idx : Nat) (acc : String) :
    wcLoop fetch fuel idx acc =
      if 2500 ≤ wordCount acc then some acc
      else
        match fuel with
        | 0 => none
        | f + 1 =>
          wcLoop fetch f (idx + 1) (acc ++ "\n\n" ++ generate_chapter (fetch idx)) := by
  cases fuel with
  | zero => rfl
  | succ f => rfl

/-- Running the floor loop from the accumulator after `j` fetches, when
the word count first reaches 2500 after `j + k` fetches, stops with
exactly that accumulator. -/
theorem wcLoop_run (fetch : Nat → FetchResult) :
    ∀ k j fuel, 2500 ≤ wordCount (chapterAcc fetch (j + k)) →
      (∀ m, j ≤ m → m < j + k → wordCount (chapterAcc fetch m) < 2500) →
      k ≤ fuel →
      wcLoop fetch fuel (j + 1) (chapterAcc fetch j) = some (chapterAcc fetch (j + k)) := by
  intro k
  induction k with
  | zero =>
    intro j fuel hge hmin hfuel
    rw [wcLoop_eq, if_pos (by simpa using hge)]
    rfl
  | succ k ih =>
    intro j fuel hge hmin hfuel
    have hj : wordCount (chapterAcc fetch j) < 2500 :=
      hmin j (Nat.le_refl j) (by omega)
    cases fuel with
    | zero => omega
    | succ f =>
      rw [wcLoop_eq, if_neg (by omega)]
      show wcLoop fetch f (j + 1 + 1)
          (chapterAcc fetch j ++ "\n\n" ++ generate_chapter (fetch (j + 1))) = _
      have step : chapterAcc fetch j ++ "\n\n" ++ generate_chapter (fetch (j + 1)) =
          chapterAcc fetch (j + 1) := rfl
      rw [step]
      have ihh := ih (j + 1) f
        (by rw [show j + 1 + k = j + (k + 1) from by omega]; exact hge)
        (fun m hm1 hm2 => hmin m (by omega) (by omega))
        (by omega)
      rw [show j + 1 + k = j + (k + 1) from by omega] at ihh
      exact ihh

/-- If the floor loop returns at all, the word count reached 2500 at some
accumulated prefix. -/
theorem wcLoop_terminates (fetch : Nat → FetchResult) :
    ∀ fuel j s, wcLoop fetch fuel (j + 1) (chapterAcc fetch j) = some s →
      loopTerminates fetch := by
  intro fuel
  induction fuel with
  | zero =>
    intro j s h
    by_cases hge : 2500 ≤ wordCount (chapterAcc fetch j)
    · exact ⟨j, hge⟩
    · rw [wcLoop_eq, if_neg hge] at h
      exact absurd h (by simp)
  | succ f ih =>
    intro j s h
    by_cases hge : 2500 ≤ wordCount (chapterAcc fetch j)
    · exact ⟨j, hge⟩
    · rw [wcLoop_eq, if_neg hge] at h
      have step : chapterAcc fetch j ++ "\n\n" ++ generate_chapter (fetch (j + 1)) =
          chapterAcc fetch (j + 1) := rfl
      change wcLoop fetch f (j + 1 + 1)
        (chapterAcc fetch j ++ "\n\n" ++ generate_chapter (fetch (j + 1))) = some s at h
      rw [step] at h
      exact ih (j + 1) s h

/-- C3, amended part: the floor loop re-invokes generation with the same
prompt (the chapter's fetch stream), appends each normalised result with a
blank-line separator, re-counts, and stops after exactly the fetches
needed to first reach 2500 words; but it has NO retry cap — it returns at
all only when some accumulated prefix reaches 2500 words. -/
theorem c3_word_count_floor :
    (∀ (fetch : Nat → FetchResult) k fuel,
        2500 ≤ wordCount (chapterAcc fetch k) →
        (∀ j, j < k → wordCount (chapterAcc fetch j) < 2500) →
        k ≤ fuel →
        wcChapter fetch fuel = some (chapterAcc fetch k)) ∧
    (∀ (fetch : Nat → FetchResult) fuel s,
        wcChapter fetch fuel = some s → loopTerminates fetch) := by
  constructor
  · intro fetch k fuel hge hmin hfuel
    have h := wcLoop_run fetch k 0 fuel
      (by rw [show (0 : Nat) + k = k from by omega]; exact hge)
      (fun m hm1 hm2 => hmin m (by omega))
      hfuel
    rw [show (0 : Nat) + k = k from by omega] at h
    exact h
  · intro fetch fuel s h
    exact wcLoop_terminates fetch fuel 0 s h

/-- C3 witness: a fetch stream whose first result already carries 2500
words terminates with zero additional fetches and zero fuel. -/
theorem c3_word_count_floor_witness :
    wcChapter bigFetch 0 = some (chapterAcc bigFetch 0) := by
  apply c3_word_count_floor.1 bigFetch 0 0
  · show 2500 ≤ wordCount (generate_chapter (okText (mkWords 2500)))
    have e : normalizeContent (mkWords 2500) = mkWords 2500 := by
      have h := normalizeContent_mkWords 2499
      norm_num at h
      exact h
    show 2500 ≤ wordCount (normalizeContent (mkWords 2500))
    rw [e]
    have h2 := wordCount_mkWords 2499
    norm_num at h2
    rw [h2]
  · intro j hj
    exact absurd hj (Nat.not_lt_zero j)
  · exact Nat.le_refl 0

theorem gen_emptyText : generate_chapter (okText "") = "" := by decide

/-- Every character of the accumulator built from the all-empty fetch
stream is a newline (only the separators accumulate). -/
theorem chapterAcc_empty_data : ∀ k, ∀ c ∈ (chapterAcc emptyFetch k).data, c = '\n' := by
  intro k
  induction k with
  | zero =>
    intro c hc
    rw [show chapterAcc emptyFetch 0 = generate_chapter (okText "") from rfl,
      gen_emptyText] at hc
    simp at hc
  | succ k ih =>
    intro c hc
    rw [show chapterAcc emptyFetch (k + 1) =
      chapterAcc emptyFetch k ++ "\n\n" ++ generate_chapter (emptyFetch (k + 1)) from rfl,
      show generate_chapter (emptyFetch (k + 1)) = "" from gen_emptyText,
      String.data_append, String.data_append] at hc
    rcases List.mem_append.mp hc with h1 | h1
    · rcases List.mem_append.mp h1 with h2 | h2
      · exact ih c h2
      · simpa using h2
    · simp at h1

/-- C3, counterexample: for the fetch stream whose every result
normalises to the empty string, no number of additional fetches ever
reaches 2500 words, so the `while word_count < 2500` loop never
terminates — there is no retry cap bounding it. -/
theorem c3_counterexample : ¬ loopTerminates emptyFetch := by
  rintro ⟨k, hk⟩
  have h0 : wordCount (chapterAcc emptyFetch k) = 0 :=
    wordCount_allspace _ (fun c hc => by rw [chapterAcc_empty_data k c hc]; rfl)
  rw [h0] at hk
  omega


theorem data_ne_nil_of_ne_empty {a : String} (h : a ≠ "") : a.data ≠ [] := by
  intro hd
  apply h
  cases a with
  | mk l =>
    cases hd
    rfl

/-- C9, amended part: every string `generate_chapter` returns is trimmed
(its last step is `.strip()`), and the floor append
`acc ++ "\n\n" ++ more` preserves trimmedness when both sides are
nonempty; when the appended normalised text is empty the invariant is
lost (see the counterexample). -/
theorem c9_trimmed_sections :
    (∀ fr, isStripped (generate_chapter fr) = true) ∧
    (∀ a b : String, isStripped a = true → isStripped b = true →
        a ≠ "" → b ≠ "" → isStripped (a ++ "\n\n" ++ b) = true) := by
  constructor
  · intro fr
    exact isStripped_pyStripL _
  · intro a b ha hb hane hbne
    have hadata : a.data ≠ [] := data_ne_nil_of_ne_empty hane
    have hbdata : b.data ≠ [] := data_ne_nil_of_ne_empty hbne
    have hd : (a ++ "\n\n" ++ b).data = a.data ++ ['\n', '\n'] ++ b.data := by
      rw [String.data_append, String.data_append]
    unfold isStripped at ha hb ⊢
    rw [hd]
    rcases Bool.and_eq_true_iff.mp ha with ⟨ha1, ha2⟩
    rcases Bool.and_eq_true_iff.mp hb with ⟨hb1, hb2⟩
    apply Bool.and_eq_true_iff.mpr
    constructor
    · cases hda : a.data with
      | nil => exact absurd hda hadata
      | cons c t =>
        rw [hda] at ha1
        simpa using ha1
    · have hgl : (a.data ++ ['\n', '\n'] ++ b.data).getLast? = b.data.getLast? := by
        apply List.getLast?_append_of_ne_nil
        exact hbdata
      rw [hgl]
      exact hb2

/-- C9 witness: appending nonempty trimmed strings with the blank-line
separator stays trimmed. -/
theorem c9_trimmed_sections_witness : isStripped ("x" ++ "\n\n" ++ "y") = true :=
  c9_trimmed_sections.2 "x" "y" (by decide) (by decide) (by decide) (by decide)

theorem gen_parenText : generate_chapter (okText "(x)") = "" := by decide

theorem wordCount_nl2_mkWords (n : Nat) :
    wordCount ("\n\n" ++ mkWords (n + 1)) = n + 1 := by
  show (pyWordsAux ("\n\n" ++ mkWords (n + 1)).data []).length = n + 1
  rw [show ("\n\n" ++ mkWords (n + 1)).data = '\n' :: '\n' :: mkWordsL (n + 1) by
    rw [String.data_append]; rfl]
  show (pyWordsAux (mkWordsL (n + 1)) []).length = n + 1
  rw [show pyWordsAux (mkWordsL (n + 1)) [] = pyWords (mkWordsL (n + 1)) from rfl,
    pyWords_mkWords n, List.length_replicate]

/-- C9, counterexample: with a first fetch normalising to the empty
string (a lone parenthetical) and a second fetch of 2500 words, the floor
loop stores `"\n\n" ++ <2500 words>` as the chapter — a section with
leading whitespace, so the trimmedness invariant does not survive the
append and the stored section is not whitespace-trimmed. -/
theorem c9_counterexample :
    wcChapter badFetch 1 = some ("\n\n" ++ mkWords 2500) ∧
    isStripped ("\n\n" ++ mkWords 2500) = false := by
  have hgen1 : generate_chapter (badFetch 1) = mkWords 2500 := by
    show normalizeContent (mkWords 2500) = mkWords 2500
    have h := normalizeContent_mkWords 2499
    norm_num at h
    exact h
  constructor
  · show wcLoop badFetch 1 1 (generate_chapter (badFetch 0)) = _
    rw [show generate_chapter (badFetch 0) = "" from gen_parenText]
    rw [wcLoop_eq, if_neg (by decide)]
    show wcLoop badFetch 0 2 ("" ++ "\n\n" ++ generate_chapter (badFetch 1)) = _
    rw [hgen1]
    show wcLoop badFetch 0 2 ("\n\n" ++ mkWords 2500) = _
    rw [wcLoop_eq]
    rw [if_pos (by
      have h2 := wordCount_nl2_mkWords 2499
      norm_num at h2
      rw [h2])]
  · show (_ && _) = false
    have hd : ("\n\n" ++ mkWords 2500).data = '\n' :: '\n' :: mkWordsL 2500 := by
      rw [String.data_append]; rfl
    have h1 : (match ("\n\n" ++ mkWords 2500).data.head? with
        | none => true
        | some c => !pyIsSpace c) = false := by
      rw [hd]
      rfl
    rw [h1]
    rfl


theorem strCat (x y : String) : x ++ y = ⟨x.data ++ y.data⟩ := by
  cases x; cases y; rfl

theorem intercalate_pair (sep a b : List Char) :
    List.intercalate sep [a, b] = a ++ sep ++ b := by
  simp [List.intercalate, List.intersperse]

theorem digitChar_facts : ∀ k, pyIsSpace (digitChar k) = false ∧
    pyIsAlpha (digitChar k) = false ∧ pyToLower (digitChar k) = digitChar k
  | 0 => ⟨rfl, rfl, rfl⟩
  | 1 => ⟨rfl, rfl, rfl⟩
  | 2 => ⟨rfl, rfl, rfl⟩
  | 3 => ⟨rfl, rfl, rfl⟩
  | 4 => ⟨rfl, rfl, rfl⟩
  | 5 => ⟨rfl, rfl, rfl⟩
  | 6 => ⟨rfl, rfl, rfl⟩
  | 7 => ⟨rfl, rfl, rfl⟩
  | 8 => ⟨rfl, rfl, rfl⟩
  | _ + 9 => ⟨rfl, rfl, rfl⟩

theorem natDigits_facts : ∀ fuel n c, c ∈ natDigits fuel n →
    pyIsSpace c = false ∧ pyIsAlpha c = false ∧ pyToLower c = c := by
  intro fuel
  induction fuel with
  | zero => intro n c h; simp [natDigits] at h
  | succ fuel ih =>
    intro n c h
    simp only [natDigits] at h
    by_cases hn : n < 10
    · rw [if_pos hn] at h
      simp at h
      subst h
      exact digitChar_facts n
    · rw [if_neg hn] at h
      rcases List.mem_append.mp h with h1 | h1
      · exact ih (n / 10) c h1
      · simp at h1
        subst h1
        exact digitChar_facts (n % 10)

theorem natDigits_ne_nil (n : Nat) : natDigits (n + 1) n ≠ [] := by
  simp only [natDigits]
  by_cases hn : n < 10
  · rw [if_pos hn]; simp
  · rw [if_neg hn]; simp

theorem map_id_of_mem {f : Char → Char} :
    ∀ l : List Char, (∀ c ∈ l, f c = c) → l.map f = l := by
  intro l
  induction l with
  | nil => intro h; rfl
  | cons c cs ih =>
    intro h
    rw [List.map_cons, h c (by simp), ih (fun a ha => h a (by simp [ha]))]

theorem pyWordsAux_nonspace :
    ∀ (ds acc : List Char), (∀ c ∈ ds, pyIsSpace c = false) →
      pyWordsAux ds acc =
        if (acc.reverse ++ ds).isEmpty then [] else [acc.reverse ++ ds] := by
  intro ds
  induction ds with
  | nil =>
    intro acc h
    show (if acc.isEmpty then [] else [acc.reverse]) = _
    rw [List.append_nil]
    cases acc with
    | nil => rfl
    | cons a as => simp
  | cons c cs ih =>
    intro acc h
    have hc : pyIsSpace c = false := h c (by simp)
    rw [show pyWordsAux (c :: cs) acc =
        if pyIsSpace c = true then
          (if acc.isEmpty then pyWordsAux cs [] else acc.reverse :: pyWordsAux cs [])
        else pyWordsAux cs (c :: acc) from rfl, hc]
    simp only [Bool.false_eq_true, if_false]
    rw [ih (c :: acc) (fun a ha => h a (by simp [ha]))]
    rw [List.reverse_cons, List.append_assoc, List.singleton_append]

theorem pyTitleAux_nonalpha :
    ∀ (l : List Char) (b : Bool), (∀ c ∈ l, pyIsAlpha c = false) → pyTitleAux b l = l := by
  intro l
  induction l with
  | nil => intro b h; rfl
  | cons c cs ih =>
    intro b h
    have hc : pyIsAlpha c = false := h c (by simp)
    rw [show pyTitleAux b (c :: cs) =
        (if pyIsAlpha c = true then (if b then pyToLower c else pyToUpper c) else c) ::
          pyTitleAux (pyIsAlpha c) cs from rfl, hc]
    simp only [Bool.false_eq_true, if_false]
    rw [ih false (fun a ha => h a (by simp [ha]))]

/-- The Spanish branch of `format_title` rewritten through the word list
of the input title (helper shared by the heading and title theorems). -/
theorem format_title_spanish (t lang : String) (w : List Char) (ws : List (List Char))
    (hlang : pyLowerStr lang = "spanish") (hwords : pyWords t.data = w :: ws) :
    format_title t lang =
      some ⟨List.intercalate [' '] (pyCapL w :: ws.map (List.map pyToLower))⟩ := by
  unfold format_title
  rw [if_pos hlang, hwords]

/-- The non-Spanish branch of `format_title` (helper shared by the heading
and title theorems). -/
theorem format_title_other (t lang : String) (hlang : ¬ pyLowerStr lang = "spanish") :
    format_title t lang = some ⟨pyTitleL t.data⟩ := by
  unfold format_title
  rw [if_neg hlang]

/-- `format_title` maps every chapter heading label to itself: the Spanish
label has its first word already capitalised and digits to lower-case are
unchanged, and `str.title` fixes `"Chapter N"`. -/
theorem format_title_label (language : String) (m : Nat) :
    format_title (labelText language m) language = some (labelText language m) := by
  by_cases h : pyLowerStr language = "spanish"
  · have hlab : labelText language m = ⟨"Capítulo ".data ++ natDigits (m + 1) m⟩ := by
      unfold labelText
      rw [if_neg (by simp [h]), strCat]
      rfl
    have hw : pyWords ("Capítulo ".data ++ natDigits (m + 1) m) =
        ["Capítulo".data, natDigits (m + 1) m] := by
      show pyWordsAux ("Capítulo ".data ++ natDigits (m + 1) m) [] = _
      rw [show pyWordsAux ("Capítulo ".data ++ natDigits (m + 1) m) [] =
          "Capítulo".data :: pyWordsAux (natDigits (m + 1) m) [] from rfl]
      rw [pyWordsAux_nonspace _ [] (fun c hc => (natDigits_facts _ _ c hc).1)]
      simp [natDigits_ne_nil m]
    have happ := format_title_spanish ⟨"Capítulo ".data ++ natDigits (m + 1) m⟩ language
      "Capítulo".data [natDigits (m + 1) m] h hw
    rw [hlab, happ]
    rw [show ([natDigits (m + 1) m]).map (List.map pyToLower) =
        [(natDigits (m + 1) m).map pyToLower] from rfl]
    rw [map_id_of_mem _ (fun c hc => (natDigits_facts _ _ c hc).2.2)]
    rw [show pyCapL "Capítulo".data = "Capítulo".data from rfl]
    rw [intercalate_pair]
    rfl
  · have hlab : labelText language m = ⟨"Chapter ".data ++ natDigits (m + 1) m⟩ := by
      unfold labelText
      rw [if_pos (by simp [h]), strCat]
      rfl
    have happ := format_title_other ⟨"Chapter ".data ++ natDigits (m + 1) m⟩ language h
    rw [hlab, happ]
    rw [show pyTitleL ("Chapter ".data ++ natDigits (m + 1) m) =
        'C' :: 'h' :: 'a' :: 'p' :: 't' :: 'e' :: 'r' :: ' ' ::
          pyTitleAux false (natDigits (m + 1) m) from rfl]
    rw [pyTitleAux_nonalpha _ false (fun c hc => (natDigits_facts _ _ c hc).2.1)]
    rfl

/-- C2, amended part: every element of the `chapters` list handed to
`create_word_document` receives the heading `"Capítulo N"` (Spanish) or
`"Chapter N"` (otherwise) with N its 1-based position in the FULL section
list — `enumerate(chapters, 1)` numbers an included introduction or
conclusion exactly like a chapter. -/
theorem c2_chapter_headings :
    ∀ (language : String) (chapters : List String),
      docHeadings language chapters =
        (List.range chapters.length).map (fun idx => some (labelText language (idx + 1))) := by
  intro language chapters
  unfold docHeadings
  exact List.map_congr_left (fun idx _ => format_title_label language (idx + 1))

/-- C2, counterexample: for a book built with an introduction and a single
chapter (in English), the introduction is itself numbered — it receives
heading `"Chapter 1"` — and the sole chapter receives `"Chapter 2"`, not
`"Chapter 1"` as its 1-based position among chapters only would demand. -/
theorem c2_counterexample :
    docHeadings "english" (buildSections true 1 false (fun _ => "x")) =
      [some "Chapter 1", some "Chapter 2"] ∧
    ("Chapter 2" : String) ≠ "Chapter 1" := by
  constructor
  · decide
  · decide


theorem normalize_placeholder : normalizeContent placeholderText = placeholderText := by
  decide

theorem chapterResults_getD (f : Nat → Nat → FetchResult) (fuel n j : Nat) :
    (chapterResults f fuel n).getD j none =
      if j < n then wcChapter (f (j + 1)) fuel else none := by
  unfold chapterResults
  by_cases hj : j < n
  · rw [if_pos hj, List.getD_eq_getElem?_getD,
      List.getElem?_map _ (List.range n) j, List.getElem?_range hj]
    rfl
  · rw [if_neg hj, List.getD_eq_getElem?_getD,
      List.getElem?_eq_none (by simpa using Nat.le_of_not_lt hj)]
    rfl

/-- C4: every failed fetch invocation — transport error, non-2xx status
(which raises in `raise_for_status`), or a malformed response shape — makes
`generate_chapter` return exactly the placeholder string; and each
chapter's stored result is a function of that chapter's own fetch stream
alone, so replacing chapter 2's fetches (e.g. by failures) leaves every
other chapter's normally generated content unchanged. -/
theorem c4_fetch_error_isolation :
    (∀ fr, fetchFailed fr → generate_chapter fr = "Error generating the chapter.") ∧
    (∀ (f : Nat → Nat → FetchResult) (fuel n j : Nat), j < n →
        (chapterResults f fuel n).getD j none = wcChapter (f (j + 1)) fuel) ∧
    (∀ (f g : Nat → Nat → FetchResult) (fuel n j : Nat),
        (∀ i, i ≠ 2 → f i = g i) → j ≠ 1 →
        (chapterResults f fuel n).getD j none = (chapterResults g fuel n).getD j none) := by
  refine ⟨?_, ?_, ?_⟩
  · intro fr h
    cases fr with
    | transportError => exact normalize_placeholder
    | ok r =>
      show normalizeContent ((extractChain r).getD placeholderText) = _
      rw [show extractChain r = none from h]
      exact normalize_placeholder
  · intro f fuel n j hj
    rw [chapterResults_getD, if_pos hj]
  · intro f g fuel n j hfg hj
    rw [chapterResults_getD, chapterResults_getD]
    by_cases hjn : j < n
    · rw [if_pos hjn, if_pos hjn, hfg (j + 1) (by omega)]
    · rw [if_neg hjn, if_neg hjn]

/-- C4 witness: a transport error yields exactly the placeholder, and with
chapter 2's fetches replaced by transport errors chapter 1's entry is
unchanged. -/
theorem c4_fetch_error_isolation_witness :
    generate_chapter FetchResult.transportError = "Error generating the chapter." ∧
    (chapterResults cfAll 0 3).getD 0 none = (chapterResults cgFail 0 3).getD 0 none :=
  ⟨c4_fetch_error_isolation.1 FetchResult.transportError trivial,
   c4_fetch_error_isolation.2.2 cfAll cgFail 0 3 0
     (fun i hi => by
       funext j
       show cfAll i j = (if i = 2 then FetchResult.transportError else cfAll i j)
       rw [if_neg hi])
     (by decide)⟩

/-- C6, counterexample: for the empty title and language `"spanish"`,
`format_title` does not return a capitalised title at all — `words[0]` on
the empty word list raises `IndexError` (modelled as `none`) — so the
claim fails for this title string even though `"spanish"` is a supported
language. -/
theorem c6_counterexample : format_title "" "spanish" = none := by decide

/-- C6, amended: for every title whose `split()` is nonempty, the Spanish
branch capitalises the first word and lower-cases the rest (joined by
single spaces); for every non-Spanish language the result is `str.title`
of the title (first letter of every letter-run capitalised) for ALL
titles; in particular the two spec examples hold.  For an empty or
whitespace-only title the Spanish branch returns no value (see the
counterexample). -/
theorem c6_title_capitalization :
    (∀ (t lang : String) (w : List Char) (ws : List (List Char)),
        pyLowerStr lang = "spanish" → pyWords t.data = w :: ws →
        format_title t lang =
          some ⟨List.intercalate [' '] (pyCapL w :: ws.map (List.map pyToLower))⟩) ∧
    (∀ t lang : String, pyLowerStr lang ≠ "spanish" →
        format_title t lang = some ⟨pyTitleL t.data⟩) ∧
    format_title "the great war" "spanish" = some "The great war" ∧
    format_title "the great war" "english" = some "The Great War" := by
  refine ⟨?_, ?_, by decide, by decide⟩
  · intro t lang w ws hlang hwords
    exact format_title_spanish t lang w ws hlang hwords
  · intro t lang hlang
    exact format_title_other t lang hlang

/-- C6 witness: the Spanish rule applied to `"ab cd"`. -/
theorem c6_title_capitalization_witness :
    format_title "ab cd" "spanish" =
      some ⟨List.intercalate [' ']
        (pyCapL "ab".data :: ["cd".data].map (List.map pyToLower))⟩ :=
  c6_title_capitalization.1 "ab cd" "spanish" "ab".data ["cd".data] (by decide) (by decide)

theorem pyWordsAux_ne_nil : ∀ (l acc : List Char), acc ≠ [] → pyWordsAux l acc ≠ [] := by
  intro l
  induction l with
  | nil =>
    intro acc h
    show (if acc.isEmpty then [] else [acc.reverse]) ≠ []
    cases acc with
    | nil => exact absurd rfl h
    | cons a as => simp
  | cons c cs ih =>
    intro acc h
    by_cases hc : pyIsSpace c = true
    · rw [show pyWordsAux (c :: cs) acc =
          if pyIsSpace c = true then
            (if acc.isEmpty then pyWordsAux cs [] else acc.reverse :: pyWordsAux cs [])
          else pyWordsAux cs (c :: acc) from rfl, if_pos hc]
      cases acc with
      | nil => exact absurd rfl h
      | cons a as => simp
    · rw [show pyWordsAux (c :: cs) acc =
          if pyIsSpace c = true then
            (if acc.isEmpty then pyWordsAux cs [] else acc.reverse :: pyWordsAux cs [])
          else pyWordsAux cs (c :: acc) from rfl, if_neg hc]
      exact ih (c :: acc) (by simp)

theorem pyWords_nil_forward : ∀ l, pyWords l = [] → ∀ c ∈ l, pyIsSpace c = true := by
  intro l
  induction l with
  | nil => intro h c hc; simp at hc
  | cons c cs ih =>
    intro h a ha
    by_cases hc : pyIsSpace c = true
    · have h2 : pyWords cs = [] := by
        show pyWordsAux cs [] = []
        rw [show pyWords (c :: cs) =
            if pyIsSpace c = true then pyWordsAux cs [] else pyWordsAux cs [c] from rfl,
          if_pos hc] at h
        exact h
      rcases List.mem_cons.mp ha with h3 | h3
      · rw [h3]; exact hc
      · exact ih h2 a h3
    · rw [show pyWords (c :: cs) =
          if pyIsSpace c = true then pyWordsAux cs [] else pyWordsAux cs [c] from rfl,
        if_neg hc] at h
      exact absurd h (pyWordsAux_ne_nil cs [c] (by simp))

/-- C10: when the language is Spanish, `format_title` requires a title
containing at least one non-whitespace word — on an empty or
whitespace-only title (`split()` empty, equivalently every character is
whitespace) it fails with `IndexError` (modelled as `none`); for every
other language the same inputs return normally; and a title with a
nonempty `split()` makes the Spanish error case unreachable. -/
theorem c10_format_title_safety :
    (∀ t : String, pyWords t.data = [] → format_title t "spanish" = none) ∧
    (∀ t lang : String, pyLowerStr lang ≠ "spanish" → (format_title t lang).isSome = true) ∧
    (∀ t lang : String, pyWords t.data ≠ [] → (format_title t lang).isSome = true) ∧
    (∀ t : String, pyWords t.data = [] ↔ ∀ c ∈ t.data, pyIsSpace c = true) := by
  refine ⟨?_, ?_, ?_, ?_⟩
  · intro t h
    unfold format_title
    rw [if_pos (show pyLowerStr "spanish" = "spanish" by decide), h]
  · intro t lang h
    unfold format_title
    rw [if_neg h]
    rfl
  · intro t lang h
    unfold format_title
    by_cases hl : pyLowerStr lang = "spanish"
    · rw [if_pos hl]
      cases hw : pyWords t.data with
      | nil => exact absurd hw h
      | cons w ws => rfl
    · rw [if_neg hl]
      rfl
  · intro t
    exact ⟨pyWords_nil_forward t.data, fun h => pyWordsAux_allspace t.data h⟩

/-- C10 witness: the whitespace-only title fails for Spanish and succeeds
for English. -/
theorem c10_format_title_safety_witness :
    format_title " " "spanish" = none ∧ (format_title " " "english").isSome = true :=
  ⟨c10_format_title_safety.1 " " (by decide),
   c10_format_title_safety.2.1 " " "english" (by decide)⟩

end BookGen
